import Mathlib

/-!
Verification development for the page-level PDF content interpreter
(`src/lib.rs` of the repository).  The Rust code works on `f32` scalars;
the embedding models every scalar as an exact rational (`ℚ`), the standard
idealisation of the float arithmetic without rounding or NaN.  Byte strings
are lists of naturals (each byte `< 256` in the source's `u8` type), and
the external `pdf`-crate collaborators (widths tables, ToUnicode maps,
resource resolvers) are modelled as plain functions, exactly the data the
Rust code reads from them.
-/

namespace PdfExtract

/-- 2-D affine matrix, six scalars `(a, b, c, d, e, f)` as in
`pdf::content::Matrix`; it represents `[x' y' 1] = [x y 1] · M` with
`M = [[a,b,0],[c,d,0],[e,f,1]]`. -/
structure Matrix where
  a : ℚ
  b : ℚ
  c : ℚ
  d : ℚ
  e : ℚ
  f : ℚ
deriving DecidableEq, Repr

/-- The `pdf` crate's `Matrix::default()`, the identity transform
(spec §3: "Identity is the initial value"). -/
def Matrix.identity : Matrix := ⟨1, 0, 0, 1, 0, 0⟩

instance : Inhabited Matrix := ⟨Matrix.identity⟩

/-- `multiply_matrix` from the source: six-coefficient product. -/
def multiply_matrix (left right : Matrix) : Matrix :=
  { a := left.a * right.a + left.b * right.c
    b := left.a * right.b + left.b * right.d
    c := left.c * right.a + left.d * right.c
    d := left.c * right.b + left.d * right.d
    e := left.e * right.a + left.f * right.c + right.e
    f := left.e * right.b + left.f * right.d + right.f }

/-- `apply_matrix` from the source: transform a point. -/
def apply_matrix (matrix : Matrix) (point : ℚ × ℚ) : ℚ × ℚ :=
  (matrix.a * point.1 + matrix.c * point.2 + matrix.e,
   matrix.b * point.1 + matrix.d * point.2 + matrix.f)

/-- `concat_matrix` from the source (used for the CTM at `Transform`). -/
def concat_matrix (current next : Matrix) : Matrix :=
  { a := current.a * next.a + current.b * next.c
    b := current.a * next.b + current.b * next.d
    c := current.c * next.a + current.d * next.c
    d := current.c * next.b + current.d * next.d
    e := current.a * next.e + current.c * next.f + current.e
    f := current.b * next.e + current.d * next.f + current.f }

/-- The pure translation matrix built inline by `translate_line` and
`translate_text`. -/
def translation_matrix (tx ty : ℚ) : Matrix := ⟨1, 0, 0, 1, tx, ty⟩

/-- Axis-aligned bounding box `(x0, y0, x1, y1)`; the source passes these
around as 4-tuples of `f32` with `x0 = min x`, `x1 = max x`. -/
structure BB where
  x0 : ℚ
  y0 : ℚ
  x1 : ℚ
  y1 : ℚ
deriving DecidableEq, Repr

instance : Inhabited BB := ⟨⟨0, 0, 0, 0⟩⟩

/-- One step of the min/max accumulation the source performs with four
mutable `min_x … max_y` variables. -/
def expand_bb (acc : BB) (p : ℚ × ℚ) : BB :=
  { x0 := min acc.x0 p.1
    y0 := min acc.y0 p.2
    x1 := max acc.x1 p.1
    y1 := max acc.y1 p.2 }

/-- `points_bbox` from the source.  The Rust code starts the fold from
`±∞` sentinels; over a non-empty list of (NaN-free) points that equals
folding from the first point, and the empty case returns `None` exactly as
in the source. -/
def points_bbox : List (ℚ × ℚ) → Option BB
  | [] => none
  | p :: ps => some (ps.foldl expand_bb ⟨p.1, p.2, p.1, p.2⟩)

/-- `unit_square_bounds` from the source: min/max of the four transformed
unit-square corners (the corner list is non-empty, so the `±∞` sentinel
fold equals folding from the first corner). -/
def unit_square_bounds (matrix : Matrix) : BB :=
  let c0 := apply_matrix matrix (0, 0)
  let c1 := apply_matrix matrix (1, 0)
  let c2 := apply_matrix matrix (0, 1)
  let c3 := apply_matrix matrix (1, 1)
  [c1, c2, c3].foldl expand_bb ⟨c0.1, c0.2, c0.1, c0.2⟩

/-- `bbox_union` from the source. -/
def bbox_union (a b : BB) : BB :=
  ⟨min a.x0 b.x0, min a.y0 b.y0, max a.x1 b.x1, max a.y1 b.y1⟩

/-- `axis_gap` from the source: gap between two intervals, zero when they
overlap. -/
def axis_gap (a_min a_max b_min b_max : ℚ) : ℚ :=
  if a_max < b_min then b_min - a_max
  else if b_max < a_min then a_min - b_max
  else 0

/-- `bbox_close` from the source. -/
def bbox_close (a b : BB) (horizontal_margin vertical_margin : ℚ) : Bool :=
  decide (axis_gap a.x0 a.x1 b.x0 b.x1 ≤ horizontal_margin) &&
  decide (axis_gap a.y0 a.y1 b.y0 b.y1 ≤ vertical_margin)

/-- `bbox_gaps` from the source. -/
def bbox_gaps (a b : BB) : ℚ × ℚ :=
  (axis_gap a.x0 a.x1 b.x0 b.x1, axis_gap a.y0 a.y1 b.y0 b.y1)

/-- `cmp_f32` from the source: `partial_cmp` with `unwrap_or(Equal)`;
total on rationals. -/
def cmp_f32 (a b : ℚ) : Ordering :=
  if a < b then .lt else if b < a then .gt else .eq

/-- Text state, mirroring the `TextState` struct. -/
structure TextState where
  current_font : Option String
  font_size : ℚ
  char_spacing : ℚ
  word_spacing : ℚ
  horizontal_scale : ℚ
  leading : ℚ
  text_rise : ℚ
  text_matrix : Matrix
  text_line_matrix : Matrix
deriving DecidableEq, Repr

/-- `TextState::default()`. -/
def TextState.default : TextState :=
  { current_font := none
    font_size := 12
    char_spacing := 0
    word_spacing := 0
    horizontal_scale := 100
    leading := 0
    text_rise := 0
    text_matrix := Matrix.identity
    text_line_matrix := Matrix.identity }

instance : Inhabited TextState := ⟨TextState.default⟩

/-- `TextState::begin_text`. -/
def TextState.begin_text (s : TextState) : TextState :=
  { s with text_matrix := Matrix.identity, text_line_matrix := Matrix.identity }

/-- `TextState::set_text_matrix`. -/
def TextState.set_text_matrix (s : TextState) (matrix : Matrix) : TextState :=
  { s with text_matrix := matrix, text_line_matrix := matrix }

/-- `TextState::set_font`. -/
def TextState.set_font (s : TextState) (name : String) (size : ℚ) : TextState :=
  { s with current_font := some name, font_size := size }

/-- `TextState::translate_line` (the `MoveTextPosition` handler). -/
def TextState.translate_line (s : TextState) (tx ty : ℚ) : TextState :=
  let line := multiply_matrix s.text_line_matrix (translation_matrix tx ty)
  { s with text_line_matrix := line, text_matrix := line }

/-- `TextState::newline` (the `TextNewline` handler). -/
def TextState.newline (s : TextState) : TextState :=
  s.translate_line 0 (-s.leading)

/-- `TextState::translate_text` (post-draw advance and `TJ` spacing). -/
def TextState.translate_text (s : TextState) (tx : ℚ) : TextState :=
  { s with text_matrix := multiply_matrix s.text_matrix (translation_matrix tx 0) }

/-- Resolved font, mirroring `ResolvedFont`; the `pdf`-crate `Widths` and
`ToUnicodeMap` collaborators are modelled as the lookup functions the Rust
code calls on them. -/
structure ResolvedFont where
  widths : Option (Nat → ℚ)
  to_unicode : Option (Nat → Option String)
  is_cid : Bool
  metrics : Option (ℚ × ℚ)

/-- `ResolvedFont::glyph_width`. -/
def ResolvedFont.glyph_width (f : ResolvedFont) (code : Nat) : ℚ :=
  match f.widths with
  | some w => w code
  | none => 1000

/-- `char::from_u32(code).unwrap_or('\u{FFFD}')`. -/
def char_or_replacement (code : Nat) : Char :=
  if code.isValidChar then Char.ofNat code else '�'

/-- Decoded text plus glyph codes, mirroring `DecodedText`. -/
structure DecodedText where
  text : String
  codes : List Nat
deriving DecidableEq, Repr

/-- The per-code text piece shared by both decoders: ToUnicode lookup,
falling back to the raw code point. -/
def decode_piece (map : Option (Nat → Option String)) (code : Nat) : String :=
  match map with
  | some m =>
    match m code with
    | some value => value
    | none => String.singleton (char_or_replacement code)
  | none => String.singleton (char_or_replacement code)

/-- `decode_simple` from the source: one byte per code. -/
def decode_simple (bytes : List Nat) (map : Option (Nat → Option String)) : DecodedText :=
  match bytes with
  | [] => { text := "", codes := [] }
  | byte :: rest =>
    let tail := decode_simple rest map
    { text := decode_piece map byte ++ tail.text, codes := byte :: tail.codes }

/-- `decode_cid` from the source: `chunks(2)`, big-endian pairs, a chunk of
length one (the trailing odd byte) is skipped. -/
def decode_cid (bytes : List Nat) (map : Option (Nat → Option String)) : DecodedText :=
  match bytes with
  | b1 :: b2 :: rest =>
    let code := b1 * 256 + b2
    let tail := decode_cid rest map
    { text := decode_piece map code ++ tail.text, codes := code :: tail.codes }
  | _ => { text := "", codes := [] }

/-- Raw PDF string operand: its byte payload (`PdfString::as_bytes`). -/
structure PdfStr where
  bytes : List Nat
deriving DecidableEq, Repr

/-- Models the host `to_string_lossy` conversion used by `fallback_decode`
(external library code): ASCII bytes map to themselves, anything else to
U+FFFD.  Exact for ASCII; no claim depends on the non-ASCII content. -/
def to_string_lossy (bytes : List Nat) : String :=
  (bytes.map (fun b => if b < 128 then Char.ofNat b else '�')).asString

/-- `fallback_decode` from the source. -/
def fallback_decode (text : PdfStr) : DecodedText :=
  { text := to_string_lossy text.bytes, codes := text.bytes }

/-- `ResolvedFont::decode`. -/
def ResolvedFont.decode (f : ResolvedFont) (text : PdfStr) : DecodedText :=
  if f.is_cid then decode_cid text.bytes f.to_unicode
  else decode_simple text.bytes f.to_unicode

/-- The `match font` at the top of `handle_text_draw`. -/
def decode_with (font : Option ResolvedFont) (text : PdfStr) : DecodedText :=
  match font with
  | some resolved => resolved.decode text
  | none => fallback_decode text

/-- `compute_text_displacement` from the source. -/
def compute_text_displacement (font : Option ResolvedFont) (codes : List Nat)
    (state : TextState) : ℚ :=
  (codes.foldl
    (fun total code =>
      let glyph_width := ((font.map (fun f => f.glyph_width code)).getD 1000)
      let advance := glyph_width / 1000 * state.font_size + state.char_spacing +
        (if code = 32 then state.word_spacing else 0)
      total + advance)
    0) * (state.horizontal_scale / 100)

/-- `DEFAULT_ASCENT`. -/
def DEFAULT_ASCENT : ℚ := 800

/-- `DEFAULT_DESCENT`. -/
def DEFAULT_DESCENT : ℚ := -200

/-- Emitted text run, mirroring `TextBlock`. -/
structure TextBlock where
  text : String
  x0 : ℚ
  y0 : ℚ
  x1 : ℚ
  y1 : ℚ
  baseline_x : ℚ
  baseline_y : ℚ
deriving DecidableEq, Repr

instance : Inhabited TextBlock := ⟨⟨"", 0, 0, 0, 0, 0, 0⟩⟩

/-- `build_text_block` from the source: six sample points transformed by
the text matrix, min/max per axis (the `±∞` sentinel fold over the
non-empty point list equals folding from the first point). -/
def build_text_block (state : TextState) (text : String) (displacement : ℚ)
    (metrics : ℚ × ℚ) : TextBlock :=
  let ascent := metrics.1 / 1000 * state.font_size
  let descent := metrics.2 / 1000 * state.font_size
  let rise := state.text_rise
  let points : List (ℚ × ℚ) :=
    [(0, rise), (displacement, rise), (0, ascent + rise), (displacement, ascent + rise),
     (0, descent + rise), (displacement, descent + rise)]
  let tp := points.map (apply_matrix state.text_matrix)
  let bb : BB :=
    match tp with
    | [] => ⟨0, 0, 0, 0⟩
    | p :: ps => ps.foldl expand_bb ⟨p.1, p.2, p.1, p.2⟩
  let baseline := apply_matrix state.text_matrix (0, rise)
  { text := text, x0 := bb.x0, y0 := bb.y0, x1 := bb.x1, y1 := bb.y1,
    baseline_x := baseline.1, baseline_y := baseline.2 }

/-- `bbox_from_block` from the source. -/
def bbox_from_block (block : TextBlock) : BB :=
  ⟨block.x0, block.y0, block.x1, block.y1⟩

/-- One element of a `TextDrawAdjusted` array. -/
inductive TextDrawAdjusted where
  | text (t : PdfStr)
  | spacing (amount : ℚ)
deriving DecidableEq, Repr

/-- Content-stream operators consumed by the core.  Operators the text and
graphics state machines both ignore (`MoveTo`, colours, clipping, …) are
collapsed into `other`, which hits the same `_ => {}` arms as in the
source. -/
inductive Op where
  | BeginText
  | EndText
  | SetTextMatrix (matrix : Matrix)
  | MoveTextPosition (tx ty : ℚ)
  | TextNewline
  | TextFont (name : String) (size : ℚ)
  | CharSpacing (char_space : ℚ)
  | WordSpacing (word_space : ℚ)
  | TextScaling (horiz_scale : ℚ)
  | Leading (leading : ℚ)
  | TextRise (rise : ℚ)
  | TextDraw (text : PdfStr)
  | TextDrawAdjusted (array : List TextDrawAdjusted)
  | Save
  | Restore
  | Transform (matrix : Matrix)
  | XObject (name : String)
  | InlineImage
  | other

/-- The page's font resources, mirroring the `HashMap<String, ResolvedFont>`
lookups of `fonts.get(name)`. -/
def FontMap : Type := String → Option ResolvedFont

/-- `handle_text_draw` from the source; the mutated `state` and `blocks`
are returned. -/
def handle_text_draw (state : TextState) (fonts : FontMap) (text : PdfStr)
    (blocks : List TextBlock) : TextState × List TextBlock :=
  let font := state.current_font.bind fonts
  let decoded := decode_with font text
  if decoded.text = "" then (state, blocks)
  else
    let displacement := compute_text_displacement font decoded.codes state
    let metrics := (font.bind ResolvedFont.metrics).getD (DEFAULT_ASCENT, DEFAULT_DESCENT)
    let block := build_text_block state decoded.text displacement metrics
    let blocks' := blocks ++ [block]
    if displacement ≠ 0 then (state.translate_text displacement, blocks')
    else (state, blocks')

/-- `handle_text_adjusted` from the source. -/
def handle_text_adjusted (state : TextState) (fonts : FontMap)
    (array : List TextDrawAdjusted) (blocks : List TextBlock) :
    TextState × List TextBlock :=
  match array with
  | [] => (state, blocks)
  | .text t :: rest =>
    let r := handle_text_draw state fonts t blocks
    handle_text_adjusted r.1 fonts rest r.2
  | .spacing amount :: rest =>
    let adjustment := -amount / 1000 * state.font_size * (state.horizontal_scale / 100)
    let state' := if adjustment ≠ 0 then state.translate_text adjustment else state
    handle_text_adjusted state' fonts rest blocks

/-- One operator of the `collect_text_blocks` loop. -/
def text_step (fonts : FontMap) (acc : TextState × List TextBlock) (op : Op) :
    TextState × List TextBlock :=
  match op with
  | .BeginText => (acc.1.begin_text, acc.2)
  | .EndText => acc
  | .SetTextMatrix matrix => (acc.1.set_text_matrix matrix, acc.2)
  | .MoveTextPosition tx ty => (acc.1.translate_line tx ty, acc.2)
  | .TextNewline => (acc.1.newline, acc.2)
  | .TextFont name size => (acc.1.set_font name size, acc.2)
  | .CharSpacing v => ({ acc.1 with char_spacing := v }, acc.2)
  | .WordSpacing v => ({ acc.1 with word_spacing := v }, acc.2)
  | .TextScaling v => ({ acc.1 with horizontal_scale := v }, acc.2)
  | .Leading v => ({ acc.1 with leading := v }, acc.2)
  | .TextRise v => ({ acc.1 with text_rise := v }, acc.2)
  | .TextDraw t => handle_text_draw acc.1 fonts t acc.2
  | .TextDrawAdjusted array => handle_text_adjusted acc.1 fonts array acc.2
  | _ => acc

/-- `collect_text_blocks` from the source. -/
def collect_text_blocks (ops : List Op) (fonts : FontMap) : List TextBlock :=
  (ops.foldl (text_step fonts) (TextState.default, [])).2

/-- Emitted positioned image.  The pixel payload comes from `extract_image`
(external decoding of the resolved stream); the embedding records the name
and the geometry, which is all the claims quantify over. -/
structure PositionedImage where
  name : String
  bbox : BB
deriving DecidableEq, Repr

/-- Graphics state of `collect_positioned_images`: CTM, save/restore stack
(top of the `Vec` = head of the list) plus the emitted images and the
inline-image counter. -/
structure GState where
  ctm : Matrix
  stack : List Matrix
  images : List PositionedImage
  inline_index : Nat

/-- The resource/XObject table, modelling `resources.xobjects.get(name)`
followed by the image test: `some true` means the name resolves to an
image XObject. -/
def ResourceMap : Type := String → Option Bool

/-- One operator of the `collect_positioned_images` loop. -/
def gs_step (resources : ResourceMap) (s : GState) (op : Op) : GState :=
  match op with
  | .Save => { s with stack := s.ctm :: s.stack }
  | .Restore => { s with ctm := s.stack.head?.getD Matrix.identity, stack := s.stack.tail }
  | .Transform matrix => { s with ctm := concat_matrix s.ctm matrix }
  | .XObject name =>
    match resources name with
    | some true =>
      { s with images := s.images ++ [⟨name, unit_square_bounds s.ctm⟩] }
    | _ => s
  | .InlineImage =>
    let n := s.inline_index + 1
    { s with inline_index := n,
             images := s.images ++ [⟨"inline_" ++ toString n, unit_square_bounds s.ctm⟩] }
  | _ => s

/-- `collect_positioned_images` from the source (the emitted image list). -/
def collect_positioned_images (resources : ResourceMap) (ops : List Op) :
    List PositionedImage :=
  (ops.foldl (gs_step resources) ⟨Matrix.identity, [], [], 0⟩).images

/-- Stable insertion of one element for `sort_by` (ties keep the earlier
element first, as Rust's stable `slice::sort_by` does). -/
def insert_by (c : α → α → Ordering) (x : α) : List α → List α
  | [] => [x]
  | y :: ys => if c x y = .lt then x :: y :: ys else y :: insert_by c x ys

/-- Stable comparator sort modelling `slice::sort_by`. -/
def sort_by (c : α → α → Ordering) : List α → List α
  | [] => []
  | x :: xs => insert_by c x (sort_by c xs)

/-- Replace the first element satisfying `p` (Rust's
`iter_mut().find(…)` followed by an in-place update); `none` when no
element matches. -/
def update_first (p : α → Bool) (f : α → α) : List α → Option (List α)
  | [] => none
  | x :: xs => if p x then some (f x :: xs) else (update_first p f xs).map (x :: ·)

/-- One grouped line, mirroring `TextLine`. -/
structure TextLine where
  center_y : ℚ
  text : String
deriving DecidableEq, Repr

/-- A growing group of runs, mirroring `GroupedTextLayout`. -/
structure GroupedTextLayout where
  bbox : BB
  lines : List TextLine
deriving DecidableEq, Repr

/-- A finished text layout, mirroring `FinalTextLayout`. -/
structure FinalTextLayout where
  bbox : BB
  lines : List String
  combined : String
  is_caption : Bool
deriving DecidableEq, Repr

instance : Inhabited FinalTextLayout := ⟨⟨⟨0, 0, 0, 0⟩, [], "", false⟩⟩

/-- `looks_like_caption` from the source (Rust's Unicode `to_lowercase` is
modelled by Lean's `String.toLower`; the claims never depend on the
lexicon test's value). -/
def looks_like_caption (text : String) : Bool :=
  let trimmed := text.trim
  if trimmed = "" then false
  else
    let trimmed :=
      ((trimmed.toList.dropWhile
        (fun ch => ch.isWhitespace || ch = '(' || ch = '[')).asString).trim
    if trimmed = "" then false
    else if trimmed.toList.head? = some '図' ∨ trimmed.toList.head? = some '表' then true
    else
      let lower := trimmed.toLower
      lower.startsWith "fig " || lower.startsWith "fig." || lower.startsWith "fig(" ||
      lower.startsWith "figure" || lower.startsWith "table"

/-- The sort order applied to the runs in `build_text_layouts`:
descending `y1`, ties ascending `x0`. -/
def block_cmp (a b : TextBlock) : Ordering :=
  let cmp_y := cmp_f32 b.y1 a.y1
  if cmp_y = .eq then cmp_f32 a.x0 b.x0 else cmp_y

/-- The body of the grouping loop in `build_text_layouts`: attach the run
to the first group within the margins, or start a new group. -/
def add_block (groups : List GroupedTextLayout) (block : TextBlock) :
    List GroupedTextLayout :=
  let bbox := bbox_from_block block
  let block_height := max |block.y1 - block.y0| 1
  let horizontal_margin := block_height * (8 / 10) + 4
  let vertical_margin := block_height * (3 / 2) + 4
  let line : TextLine := ⟨(block.y0 + block.y1) / 2, block.text⟩
  match update_first (fun group => bbox_close group.bbox bbox horizontal_margin vertical_margin)
      (fun group => { bbox := bbox_union group.bbox bbox, lines := group.lines ++ [line] })
      groups with
  | some groups' => groups'
  | none => groups ++ [⟨bbox, [line]⟩]

/-- The per-group finishing step of `build_text_layouts`. -/
def finish_group (group : GroupedTextLayout) : FinalTextLayout :=
  let lines := (sort_by (fun a b => cmp_f32 b.center_y a.center_y) group.lines).map
    (fun line => line.text)
  let combined := String.intercalate "\n" lines
  let first_line := lines.head?.getD ""
  { bbox := group.bbox, lines := lines, combined := combined,
    is_caption := looks_like_caption first_line }

/-- The final layout sort of `build_text_layouts`: descending `bbox.y1`,
ties ascending `bbox.x0`. -/
def layout_cmp (a b : FinalTextLayout) : Ordering :=
  let cmp_y := cmp_f32 b.bbox.y1 a.bbox.y1
  if cmp_y = .eq then cmp_f32 a.bbox.x0 b.bbox.x0 else cmp_y

/-- `build_text_layouts` from the source. -/
def build_text_layouts (blocks : List TextBlock) : List FinalTextLayout :=
  let sorted := sort_by block_cmp blocks
  let groups := sorted.foldl add_block []
  sort_by layout_cmp (groups.map finish_group)

/-- `CaptionInfo` from the source. -/
structure CaptionInfo where
  text : String
  bbox : BB
deriving DecidableEq, Repr

/-- `ImageLayout` from the source. -/
structure ImageLayout where
  name : String
  bbox : BB
  captions : List CaptionInfo
deriving DecidableEq, Repr

instance : Inhabited ImageLayout := ⟨⟨"", ⟨0, 0, 0, 0⟩, []⟩⟩

/-- `ObjectLayout` from the source. -/
structure ObjectLayout where
  bbox : BB
  kinds : List String
  captions : List CaptionInfo
deriving DecidableEq, Repr

instance : Inhabited ObjectLayout := ⟨⟨⟨0, 0, 0, 0⟩, [], []⟩⟩

/-- `CAPTION_HORIZONTAL_MARGIN`. -/
def CAPTION_HORIZONTAL_MARGIN : ℚ := 40

/-- `CAPTION_VERTICAL_MARGIN`. -/
def CAPTION_VERTICAL_MARGIN : ℚ := 80

/-- `CAPTION_EPSILON` (the `f32` literal `1e-3`, idealised). -/
def CAPTION_EPSILON : ℚ := 1 / 1000

/-- `OBJECT_MERGE_MARGIN`. -/
def OBJECT_MERGE_MARGIN : ℚ := 4

/-- `build_image_layouts` from the source. -/
def build_image_layouts (images : List PositionedImage) : List ImageLayout :=
  images.map (fun image => { name := image.name, bbox := image.bbox, captions := [] })

/-- The body of the `build_object_layouts` loop. -/
def add_segment (layouts : List ObjectLayout) (segment : String × List (ℚ × ℚ)) :
    List ObjectLayout :=
  match points_bbox segment.2 with
  | none => layouts
  | some bbox =>
    match update_first
        (fun layout => bbox_close layout.bbox bbox OBJECT_MERGE_MARGIN OBJECT_MERGE_MARGIN)
        (fun layout =>
          { layout with
            bbox := bbox_union layout.bbox bbox
            kinds := if layout.kinds.any (· = segment.1) then layout.kinds
                     else layout.kinds ++ [segment.1] })
        layouts with
    | some layouts' => layouts'
    | none => layouts ++ [⟨bbox, [segment.1], []⟩]

/-- `build_object_layouts` from the source. -/
def build_object_layouts (segments : List (String × List (ℚ × ℚ))) :
    List ObjectLayout :=
  segments.foldl add_segment []

/-- One iteration of the `best_caption_index` loop on the layout with
index `idx` and bounding box `bbox`: `best` is the running
`(index, best_y_gap, best_x_gap)` from the previous iterations. -/
def best_caption_step (caption_bbox : BB) (idx : Nat) (best : Option (Nat × ℚ × ℚ))
    (bbox : BB) : Option (Nat × ℚ × ℚ) :=
  let gaps := bbox_gaps bbox caption_bbox
  if gaps.1 ≤ CAPTION_HORIZONTAL_MARGIN ∧ gaps.2 ≤ CAPTION_VERTICAL_MARGIN then
    match best with
    | some (_, best_y, best_x) =>
      if gaps.2 > best_y + CAPTION_EPSILON ∨
          (|gaps.2 - best_y| ≤ CAPTION_EPSILON ∧ gaps.1 ≥ best_x - CAPTION_EPSILON) then
        best
      else some (idx, gaps.2, gaps.1)
    | none => some (idx, gaps.2, gaps.1)
  else best

/-- The enumerate-and-fold loop of `best_caption_index`; `idx` is the index
of the head of the remaining list. -/
def best_caption_go (caption_bbox : BB) (idx : Nat) (best : Option (Nat × ℚ × ℚ)) :
    List BB → Option (Nat × ℚ × ℚ)
  | [] => best
  | bbox :: rest =>
    best_caption_go caption_bbox (idx + 1) (best_caption_step caption_bbox idx best bbox) rest

/-- `best_caption_index` from the source.  The Rust function is generic
over a `bbox_fn`; the embedding takes the already-projected bbox list (the
call sites pass `layouts.map (·.bbox)`). -/
def best_caption_index (bboxes : List BB) (caption_bbox : BB) : Option Nat :=
  (best_caption_go caption_bbox 0 none bboxes).map (fun best => best.1)

/-- The layout update performed on attachment in
`assign_captions_to_images`: extend the bbox to the union and push the
caption info. -/
def push_caption_img (layout : ImageLayout) (caption : FinalTextLayout) : ImageLayout :=
  { layout with
    bbox := bbox_union layout.bbox caption.bbox
    captions := layout.captions ++ [⟨caption.combined, caption.bbox⟩] }

/-- The layout update performed on attachment in
`assign_captions_to_objects`. -/
def push_caption_obj (layout : ObjectLayout) (caption : FinalTextLayout) : ObjectLayout :=
  { layout with
    bbox := bbox_union layout.bbox caption.bbox
    captions := layout.captions ++ [⟨caption.combined, caption.bbox⟩] }

/-- `assign_captions_to_images` from the source; returns the mutated
layouts and `assigned` flags. -/
def assign_captions_to_images (layouts : List ImageLayout)
    (text_layouts : List FinalTextLayout) (caption_indices : List Nat)
    (assigned : List Bool) : List ImageLayout × List Bool :=
  match caption_indices with
  | [] => (layouts, assigned)
  | caption_idx :: rest =>
    if assigned.getD caption_idx false then
      assign_captions_to_images layouts text_layouts rest assigned
    else
      let caption := text_layouts.getD caption_idx default
      match best_caption_index (layouts.map (fun l => l.bbox)) caption.bbox with
      | some best_idx =>
        assign_captions_to_images
          (layouts.set best_idx (push_caption_img (layouts.getD best_idx default) caption))
          text_layouts rest (assigned.set caption_idx true)
      | none => assign_captions_to_images layouts text_layouts rest assigned

/-- `assign_captions_to_objects` from the source. -/
def assign_captions_to_objects (layouts : List ObjectLayout)
    (text_layouts : List FinalTextLayout) (caption_indices : List Nat)
    (assigned : List Bool) : List ObjectLayout × List Bool :=
  match caption_indices with
  | [] => (layouts, assigned)
  | caption_idx :: rest =>
    if assigned.getD caption_idx false then
      assign_captions_to_objects layouts text_layouts rest assigned
    else
      let caption := text_layouts.getD caption_idx default
      match best_caption_index (layouts.map (fun l => l.bbox)) caption.bbox with
      | some best_idx =>
        assign_captions_to_objects
          (layouts.set best_idx (push_caption_obj (layouts.getD best_idx default) caption))
          text_layouts rest (assigned.set caption_idx true)
      | none => assign_captions_to_objects layouts text_layouts rest assigned

/-- An `f32` value as classified by the dpi validation (`is_finite`,
comparison with zero); NaN and the infinities are the non-finite cases. -/
inductive F32 where
  | finite (val : ℚ)
  | nan
  | posInf
  | negInf
deriving DecidableEq, Repr

/-- `f32::is_finite`. -/
def F32.isFinite : F32 → Bool
  | .finite _ => true
  | _ => false

/-- The `dpi <= 0.0` comparison (false on NaN). -/
def F32.leZero : F32 → Bool
  | .finite v => decide (v ≤ 0)
  | .negInf => true
  | _ => false

/-- Outcome of the argument checks at the top of `extract_region_images`. -/
inductive RegionCall where
  | emptyOk
  | dpiError
  | proceeds
deriving DecidableEq, Repr

/-- The entry of `extract_region_images`: the empty-rectangles early
return (`Ok(vec![])`) comes before the dpi validation; with non-empty
rectangles an invalid dpi raises "dpi must be a positive finite value",
and otherwise control proceeds to the (external) rendering stage. -/
def extract_region_images_entry (rectangles : List BB) (dpi : F32) : RegionCall :=
  if rectangles.isEmpty then .emptyOk
  else if !dpi.isFinite || dpi.leZero then .dpiError
  else .proceeds

/-- `f32::clamp` on rationals. -/
def qclamp (v lo hi : ℚ) : ℚ := min (max v lo) hi

/-- Integer clamp used after the pixel floor/ceil. -/
def iclamp (v lo hi : ℤ) : ℤ := min (max v lo) hi

/-- The degenerate-span growth of the source: when `hi ≤ lo`, grow `hi` by
one pixel, saturating at `cap` (`hi.saturating_add(1).min(cap)`). -/
def grow_px (lo hi cap : Nat) : Nat := if hi ≤ lo then min (hi + 1) cap else hi

/-- The geometric record emitted per rectangle by `extract_region_images`
(the PNG payload comes from the external renderer). -/
structure RegionGeom where
  input_bbox : BB
  bbox : BB
  pixel_bounds : Nat × Nat × Nat × Nat
deriving DecidableEq, Repr

/-- The per-rectangle geometry of the `extract_region_images` loop:
canonicalise, clamp to the page, map to pixels with the y-flip, grow
degenerate pixel spans by one, or fail exactly as the source does. -/
def region_rect (page_width page_height scale_x scale_y : ℚ)
    (image_width image_height : Nat) (index : Nat) (r : BB) :
    Except String RegionGeom :=
  let canonical : BB := ⟨min r.x0 r.x1, min r.y0 r.y1, max r.x0 r.x1, max r.y0 r.y1⟩
  let clamped : BB :=
    ⟨qclamp canonical.x0 0 page_width, qclamp canonical.y0 0 page_height,
     qclamp canonical.x1 0 page_width, qclamp canonical.y1 0 page_height⟩
  if clamped.x0 ≥ clamped.x1 ∨ clamped.y0 ≥ clamped.y1 then
    .error ("rectangle at index " ++ toString index ++ " does not overlap the page bounds")
  else
    let left_f : ℤ := ⌊clamped.x0 * scale_x⌋
    let right_f : ℤ := ⌈clamped.x1 * scale_x⌉
    let top_f : ℤ := ⌊(page_height - clamped.y1) * scale_y⌋
    let bottom_f : ℤ := ⌈(page_height - clamped.y0) * scale_y⌉
    let left_px : Nat := (iclamp left_f 0 image_width).toNat
    let right_px0 : Nat := (iclamp right_f 0 image_width).toNat
    let top_px : Nat := (iclamp top_f 0 image_height).toNat
    let bottom_px0 : Nat := (iclamp bottom_f 0 image_height).toNat
    let right_px := grow_px left_px right_px0 image_width
    let bottom_px := grow_px top_px bottom_px0 image_height
    if right_px ≤ left_px ∨ bottom_px ≤ top_px then
      .error ("rectangle at index " ++ toString index ++ " produced an empty region after scaling")
    else
      .ok { input_bbox := r, bbox := clamped,
            pixel_bounds :=
              (left_px, top_px, left_px + (right_px - left_px), top_px + (bottom_px - top_px)) }

/-!  Helper lemmas.  -/

/-- Accumulating a mapped value over a fold equals adding the mapped sum. -/
theorem foldl_add_map (f : Nat → ℚ) (l : List Nat) (init : ℚ) :
    l.foldl (fun t c => t + f c) init = init + (l.map f).sum := by
  induction l generalizing init with
  | nil => simp
  | cons a t ih => simp [ih]; ring

/-- The glyph-width fallbacks of the text-displacement loop: the width the
claim calls `w[k]` (1000 for an unknown font, 1000 without a widths table,
the table entry otherwise). -/
def spec_width (font : Option ResolvedFont) (code : Nat) : ℚ :=
  match font with
  | none => 1000
  | some f =>
    match f.widths with
    | none => 1000
    | some w => w code

theorem spec_width_eq (font : Option ResolvedFont) (code : Nat) :
    (font.map (fun f => f.glyph_width code)).getD 1000 = spec_width font code := by
  cases font with
  | none => rfl
  | some f =>
    cases h : f.widths with
    | none => simp [spec_width, ResolvedFont.glyph_width, h]
    | some w => simp [spec_width, ResolvedFont.glyph_width, h]

/-!  Claim C1.  -/

/-- Claim C1 (counterexample).  The claim predicts that
`MoveTextPosition(tx, ty)` sets the text-line matrix to
`translate(tx, ty) · (old text-line matrix)`.  With the old text-line
matrix `[[2,0],[0,1],(0,0)]` (an x-scale) and a translation by `(1, 0)`
the code instead produces `e = 1` while the claimed product has `e = 2`. -/
theorem c1_move_text_position_cex :
    (({ TextState.default with
        text_line_matrix := ⟨2, 0, 0, 1, 0, 0⟩ } : TextState).translate_line 1 0).text_line_matrix ≠
      multiply_matrix (translation_matrix 1 0) ⟨2, 0, 0, 1, 0, 0⟩ := by
  intro h
  have he := congrArg Matrix.e h
  norm_num [TextState.translate_line, multiply_matrix, translation_matrix] at he

/-- Claim C1 (amended).  `multiply_matrix l r` is the row-vector product
`l · r` (apply `l` first, then `r`); hence `MoveTextPosition(tx, ty)` sets
the text-line matrix to `(old text-line matrix) · translate(tx, ty)`, which
just adds `(tx, ty)` to the `e`/`f` components, and copies it into the text
matrix.  Moreover the CTM concat of `Transform` is a different routine,
`concat_matrix`, which does not compute the same function as
`multiply_matrix`. -/
theorem c1_matrix_composition_amended :
    (∀ (l r : Matrix) (p : ℚ × ℚ),
      apply_matrix (multiply_matrix l r) p = apply_matrix r (apply_matrix l p))
    ∧ (∀ (s : TextState) (tx ty : ℚ),
        (s.translate_line tx ty).text_line_matrix =
          multiply_matrix s.text_line_matrix (translation_matrix tx ty)
        ∧ (s.translate_line tx ty).text_line_matrix =
            { s.text_line_matrix with
              e := s.text_line_matrix.e + tx, f := s.text_line_matrix.f + ty }
        ∧ (s.translate_line tx ty).text_matrix = (s.translate_line tx ty).text_line_matrix)
    ∧ (∃ l r : Matrix, concat_matrix l r ≠ multiply_matrix l r) := by
  refine ⟨?_, ?_, ?_⟩
  · intro l r p
    simp only [apply_matrix, multiply_matrix, Prod.mk.injEq]
    constructor <;> ring
  · intro s tx ty
    refine ⟨rfl, ?_, rfl⟩
    simp only [TextState.translate_line, multiply_matrix, translation_matrix, Matrix.mk.injEq]
    refine ⟨by ring, by ring, by ring, by ring, by ring, by ring⟩
  · refine ⟨⟨2, 0, 0, 1, 0, 0⟩, ⟨1, 0, 0, 1, 1, 0⟩, ?_⟩
    intro h
    have he := congrArg Matrix.e h
    norm_num [concat_matrix, multiply_matrix] at he

/-!  Claim C2.  -/

/-- Claim C2.  The horizontal displacement of a decoded code sequence is
exactly `(Σ_k (w[k]/1000 · size + char_spacing + word_spacing·[k = 0x20]))
· (hscale/100)`, where `w[k]` is the widths-table entry, 1000 when the font
has no widths table, and 1000 for every code when the font is unknown. -/
theorem c2_text_displacement :
    ∀ (font : Option ResolvedFont) (codes : List Nat) (state : TextState),
      compute_text_displacement font codes state =
        (codes.map (fun k =>
          spec_width font k / 1000 * state.font_size + state.char_spacing +
            (if k = 32 then state.word_spacing else 0))).sum *
          (state.horizontal_scale / 100)
      ∧ (∀ (f : ResolvedFont) (k : Nat), f.widths = none → f.glyph_width k = 1000)
      ∧ (∀ k : Nat, spec_width none k = 1000) := by
  intro font codes state
  refine ⟨?_, ?_, ?_⟩
  · unfold compute_text_displacement
    simp only [spec_width_eq]
    rw [foldl_add_map
      (fun k => spec_width font k / 1000 * state.font_size + state.char_spacing +
        (if k = 32 then state.word_spacing else 0))]
    ring
  · intro f k h
    simp [ResolvedFont.glyph_width, h]
  · intro k
    rfl

/-!  Claim C3.  -/

/-- A bounding box is ordered when `x0 ≤ x1 ∧ y0 ≤ y1`. -/
def ordered_bb (b : BB) : Prop := b.x0 ≤ b.x1 ∧ b.y0 ≤ b.y1

theorem ordered_expand_bb (acc : BB) (p : ℚ × ℚ) (h : ordered_bb acc) :
    ordered_bb (expand_bb acc p) :=
  ⟨le_trans (min_le_left _ _) (le_trans h.1 (le_max_left _ _)),
   le_trans (min_le_left _ _) (le_trans h.2 (le_max_left _ _))⟩

theorem ordered_foldl_expand (ps : List (ℚ × ℚ)) :
    ∀ acc, ordered_bb acc → ordered_bb (ps.foldl expand_bb acc) := by
  induction ps with
  | nil => intro acc h; exact h
  | cons p rest ih => intro acc h; exact ih _ (ordered_expand_bb acc p h)

theorem ordered_points_bbox (ps : List (ℚ × ℚ)) (bb : BB)
    (h : points_bbox ps = some bb) : ordered_bb bb := by
  cases ps with
  | nil => exact absurd h (by simp [points_bbox])
  | cons p rest =>
    simp only [points_bbox, Option.some.injEq] at h
    subst h
    exact ordered_foldl_expand rest _ ⟨le_refl _, le_refl _⟩

theorem ordered_unit_square_bounds (m : Matrix) : ordered_bb (unit_square_bounds m) := by
  unfold unit_square_bounds
  exact ordered_foldl_expand _ _ ⟨le_refl _, le_refl _⟩

theorem ordered_bbox_union (a b : BB) (ha : ordered_bb a) (_hb : ordered_bb b) :
    ordered_bb (bbox_union a b) :=
  ⟨le_trans (min_le_left _ _) (le_trans ha.1 (le_max_left _ _)),
   le_trans (min_le_left _ _) (le_trans ha.2 (le_max_left _ _))⟩

theorem ordered_build_text_block (state : TextState) (text : String) (d : ℚ)
    (met : ℚ × ℚ) : ordered_bb (bbox_from_block (build_text_block state text d met)) := by
  unfold build_text_block bbox_from_block
  dsimp only [List.map]
  exact ordered_foldl_expand _ _ ⟨le_refl _, le_refl _⟩

theorem handle_text_draw_blocks (state : TextState) (fonts : FontMap) (text : PdfStr)
    (blocks : List TextBlock) :
    (handle_text_draw state fonts text blocks).2 = blocks ∨
      ∃ d met, (handle_text_draw state fonts text blocks).2 =
        blocks ++
          [build_text_block state (decode_with (state.current_font.bind fonts) text).text d met] := by
  unfold handle_text_draw
  dsimp only
  split_ifs
  · exact Or.inl rfl
  · exact Or.inr ⟨_, _, rfl⟩
  · exact Or.inr ⟨_, _, rfl⟩

theorem handle_text_draw_ordered (state : TextState) (fonts : FontMap) (text : PdfStr)
    (blocks : List TextBlock) (h : ∀ b ∈ blocks, ordered_bb (bbox_from_block b)) :
    ∀ b ∈ (handle_text_draw state fonts text blocks).2, ordered_bb (bbox_from_block b) := by
  intro b hb
  rcases handle_text_draw_blocks state fonts text blocks with he | ⟨d, met, he⟩
  · rw [he] at hb; exact h b hb
  · rw [he] at hb
    rcases List.mem_append.mp hb with hb | hb
    · exact h b hb
    · rw [List.mem_singleton.mp hb]
      exact ordered_build_text_block state _ d met

theorem handle_text_adjusted_text_eq (state : TextState) (fonts : FontMap) (t : PdfStr)
    (rest : List TextDrawAdjusted) (blocks : List TextBlock) :
    handle_text_adjusted state fonts (.text t :: rest) blocks =
      handle_text_adjusted (handle_text_draw state fonts t blocks).1 fonts rest
        (handle_text_draw state fonts t blocks).2 := rfl

theorem handle_text_adjusted_spacing_eq (state : TextState) (fonts : FontMap) (a : ℚ)
    (rest : List TextDrawAdjusted) (blocks : List TextBlock) :
    handle_text_adjusted state fonts (.spacing a :: rest) blocks =
      handle_text_adjusted
        (if -a / 1000 * state.font_size * (state.horizontal_scale / 100) ≠ 0 then
          state.translate_text (-a / 1000 * state.font_size * (state.horizontal_scale / 100))
        else state) fonts rest blocks := rfl

theorem handle_text_adjusted_ordered (fonts : FontMap) :
    ∀ (array : List TextDrawAdjusted) (state : TextState) (blocks : List TextBlock),
      (∀ b ∈ blocks, ordered_bb (bbox_from_block b)) →
      ∀ b ∈ (handle_text_adjusted state fonts array blocks).2, ordered_bb (bbox_from_block b) := by
  intro array
  induction array with
  | nil => intro state blocks h; exact h
  | cons item rest ih =>
    intro state blocks h
    cases item with
    | text t =>
      rw [handle_text_adjusted_text_eq]
      exact ih _ _ (handle_text_draw_ordered state fonts t blocks h)
    | spacing a =>
      rw [handle_text_adjusted_spacing_eq]
      exact ih _ _ h

theorem text_step_ordered (fonts : FontMap) (acc : TextState × List TextBlock) (op : Op)
    (h : ∀ b ∈ acc.2, ordered_bb (bbox_from_block b)) :
    ∀ b ∈ (text_step fonts acc op).2, ordered_bb (bbox_from_block b) := by
  cases op
  case TextDraw t => exact handle_text_draw_ordered acc.1 fonts t acc.2 h
  case TextDrawAdjusted array => exact handle_text_adjusted_ordered fonts array acc.1 acc.2 h
  all_goals exact h

theorem foldl_text_step_ordered (fonts : FontMap) :
    ∀ (ops : List Op) (acc : TextState × List TextBlock),
      (∀ b ∈ acc.2, ordered_bb (bbox_from_block b)) →
      ∀ b ∈ (ops.foldl (text_step fonts) acc).2, ordered_bb (bbox_from_block b) := by
  intro ops
  induction ops with
  | nil => intro acc h; exact h
  | cons op rest ih => intro acc h; exact ih _ (text_step_ordered fonts acc op h)

theorem collect_text_blocks_ordered (ops : List Op) (fonts : FontMap) :
    ∀ b ∈ collect_text_blocks ops fonts, ordered_bb (bbox_from_block b) :=
  foldl_text_step_ordered fonts ops (TextState.default, []) (by simp)

theorem gs_step_images_ordered (resources : ResourceMap) (s : GState) (op : Op)
    (h : ∀ i ∈ s.images, ordered_bb i.bbox) :
    ∀ i ∈ (gs_step resources s op).images, ordered_bb i.bbox := by
  intro i hi
  cases op
  case XObject name =>
    unfold gs_step at hi
    dsimp only at hi
    rcases hres : resources name with _ | bv
    · rw [hres] at hi
      dsimp only at hi
      exact h i hi
    · rw [hres] at hi
      cases bv
      · dsimp only at hi
        exact h i hi
      · dsimp only at hi
        rcases List.mem_append.mp hi with hi | hi
        · exact h i hi
        · rw [List.mem_singleton.mp hi]
          exact ordered_unit_square_bounds s.ctm
  case InlineImage =>
    unfold gs_step at hi
    dsimp only at hi
    rcases List.mem_append.mp hi with hi | hi
    · exact h i hi
    · rw [List.mem_singleton.mp hi]
      exact ordered_unit_square_bounds s.ctm
  all_goals (unfold gs_step at hi; dsimp only at hi; exact h i hi)

theorem collect_positioned_images_ordered (resources : ResourceMap) :
    ∀ (ops : List Op) (s : GState),
      (∀ i ∈ s.images, ordered_bb i.bbox) →
      ∀ i ∈ (ops.foldl (gs_step resources) s).images, ordered_bb i.bbox := by
  intro ops
  induction ops with
  | nil => intro s h; exact h
  | cons op rest ih => intro s h; exact ih _ (gs_step_images_ordered resources s op h)

theorem mem_insert_by {c : α → α → Ordering} {x a : α} :
    ∀ {l : List α}, a ∈ insert_by c x l → a = x ∨ a ∈ l := by
  intro l
  induction l with
  | nil => intro h; simp [insert_by] at h; exact Or.inl h
  | cons y ys ih =>
    intro h
    unfold insert_by at h
    split_ifs at h
    · simpa using h
    · rcases List.mem_cons.mp h with h | h
      · exact Or.inr (h ▸ List.mem_cons_self y ys)
      · rcases ih h with h | h
        · exact Or.inl h
        · exact Or.inr (List.mem_cons_of_mem _ h)

theorem mem_sort_by {c : α → α → Ordering} :
    ∀ {l : List α} {a : α}, a ∈ sort_by c l → a ∈ l := by
  intro l
  induction l with
  | nil => intro a h; exact h
  | cons x xs ih =>
    intro a h
    rcases mem_insert_by h with h | h
    · exact h ▸ List.mem_cons_self x xs
    · exact List.mem_cons_of_mem _ (ih h)

theorem update_first_mem {p : α → Bool} {f : α → α} :
    ∀ {l l' : List α}, update_first p f l = some l' →
      ∀ x ∈ l', x ∈ l ∨ ∃ y ∈ l, x = f y := by
  intro l
  induction l with
  | nil => intro l' h; exact absurd h (by simp [update_first])
  | cons z zs ih =>
    intro l' h x hx
    unfold update_first at h
    split_ifs at h with hp
    · rw [← Option.some.inj h] at hx
      rcases List.mem_cons.mp hx with hx | hx
      · exact Or.inr ⟨z, List.mem_cons_self z zs, hx⟩
      · exact Or.inl (List.mem_cons_of_mem _ hx)
    · cases hu : update_first p f zs with
      | none => rw [hu] at h; exact absurd h (by simp)
      | some l'' =>
        rw [hu] at h
        simp only [Option.map_some', Option.some.injEq] at h
        rw [← h] at hx
        rcases List.mem_cons.mp hx with hx | hx
        · exact Or.inl (hx ▸ List.mem_cons_self z zs)
        · rcases ih hu x hx with hx | ⟨y, hy, hxy⟩
          · exact Or.inl (List.mem_cons_of_mem _ hx)
          · exact Or.inr ⟨y, List.mem_cons_of_mem _ hy, hxy⟩

theorem add_block_ordered (groups : List GroupedTextLayout) (block : TextBlock)
    (hg : ∀ g ∈ groups, ordered_bb g.bbox)
    (hb : ordered_bb (bbox_from_block block)) :
    ∀ g ∈ add_block groups block, ordered_bb g.bbox := by
  unfold add_block
  dsimp only
  cases hu : update_first
      (fun group => bbox_close group.bbox (bbox_from_block block)
        (max |block.y1 - block.y0| 1 * (8 / 10) + 4) (max |block.y1 - block.y0| 1 * (3 / 2) + 4))
      (fun group =>
        { bbox := bbox_union group.bbox (bbox_from_block block),
          lines := group.lines ++ [⟨(block.y0 + block.y1) / 2, block.text⟩] }) groups with
  | some groups' =>
    intro g hgm
    rcases update_first_mem hu g hgm with hgm | ⟨y, hy, rfl⟩
    · exact hg g hgm
    · exact ordered_bbox_union _ _ (hg y hy) hb
  | none =>
    intro g hgm
    rcases List.mem_append.mp hgm with hgm | hgm
    · exact hg g hgm
    · rw [List.mem_singleton.mp hgm]
      exact hb

theorem foldl_add_block_ordered :
    ∀ (bs : List TextBlock) (gs : List GroupedTextLayout),
      (∀ g ∈ gs, ordered_bb g.bbox) →
      (∀ b ∈ bs, ordered_bb (bbox_from_block b)) →
      ∀ g ∈ bs.foldl add_block gs, ordered_bb g.bbox := by
  intro bs
  induction bs with
  | nil => intro gs hg hb; exact hg
  | cons b rest ih =>
    intro gs hg hb
    exact ih _
      (add_block_ordered gs b hg (hb b (List.mem_cons_self b rest)))
      (fun x hx => hb x (List.mem_cons_of_mem _ hx))

theorem build_text_layouts_ordered (blocks : List TextBlock)
    (h : ∀ b ∈ blocks, ordered_bb (bbox_from_block b)) :
    ∀ L ∈ build_text_layouts blocks, ordered_bb L.bbox := by
  intro L hL
  have hL' := mem_sort_by hL
  rcases List.mem_map.mp hL' with ⟨g, hg, rfl⟩
  have hgroups :=
    foldl_add_block_ordered (sort_by block_cmp blocks) [] (by simp)
      (fun b hb => h b (mem_sort_by hb))
  exact hgroups g hg

theorem add_segment_ordered (layouts : List ObjectLayout)
    (segment : String × List (ℚ × ℚ)) (h : ∀ L ∈ layouts, ordered_bb L.bbox) :
    ∀ L ∈ add_segment layouts segment, ordered_bb L.bbox := by
  intro L hLm
  unfold add_segment at hLm
  cases hpb : points_bbox segment.2 with
  | none =>
    rw [hpb] at hLm
    dsimp only at hLm
    exact h L hLm
  | some bbox =>
    have hbb := ordered_points_bbox _ _ hpb
    rw [hpb] at hLm
    dsimp only at hLm
    rcases hu : update_first
        (fun layout => bbox_close layout.bbox bbox OBJECT_MERGE_MARGIN OBJECT_MERGE_MARGIN)
        (fun layout =>
          { layout with
            bbox := bbox_union layout.bbox bbox
            kinds := if layout.kinds.any (· = segment.1) then layout.kinds
                     else layout.kinds ++ [segment.1] }) layouts with _ | layouts'
    · rw [hu] at hLm
      dsimp only at hLm
      rcases List.mem_append.mp hLm with hLm | hLm
      · exact h L hLm
      · rw [List.mem_singleton.mp hLm]
        exact hbb
    · rw [hu] at hLm
      dsimp only at hLm
      rcases update_first_mem hu L hLm with hLm | ⟨y, hy, rfl⟩
      · exact h L hLm
      · exact ordered_bbox_union _ _ (h y hy) hbb

theorem build_object_layouts_ordered :
    ∀ (segments : List (String × List (ℚ × ℚ))) (init : List ObjectLayout),
      (∀ L ∈ init, ordered_bb L.bbox) →
      ∀ L ∈ segments.foldl add_segment init, ordered_bb L.bbox := by
  intro segments
  induction segments with
  | nil => intro init h; exact h
  | cons seg rest ih =>
    intro init h
    exact ih _ (add_segment_ordered init seg h)

theorem build_image_layouts_ordered (images : List PositionedImage)
    (h : ∀ i ∈ images, ordered_bb i.bbox) :
    ∀ L ∈ build_image_layouts images, ordered_bb L.bbox := by
  intro L hL
  rcases List.mem_map.mp hL with ⟨img, hi, rfl⟩
  exact h img hi

theorem getD_text_layout_ordered (tls : List FinalTextLayout) (i : Nat)
    (h : ∀ t ∈ tls, ordered_bb t.bbox) : ordered_bb ((tls.getD i default).bbox) := by
  have he : tls.getD i default = (tls.get? i).getD default := by simp [List.getD]
  rw [he]
  cases hg : tls.get? i with
  | none => exact ⟨le_refl _, le_refl _⟩
  | some t => exact h t (List.get?_mem hg)

theorem getD_image_layout_ordered (layouts : List ImageLayout) (b : Nat)
    (h : ∀ L ∈ layouts, ordered_bb L.bbox) : ordered_bb ((layouts.getD b default).bbox) := by
  have he : layouts.getD b default = (layouts.get? b).getD default := by simp [List.getD]
  rw [he]
  cases hg : layouts.get? b with
  | none => exact ⟨le_refl _, le_refl _⟩
  | some L => exact h L (List.get?_mem hg)

theorem getD_object_layout_ordered (layouts : List ObjectLayout) (b : Nat)
    (h : ∀ L ∈ layouts, ordered_bb L.bbox) : ordered_bb ((layouts.getD b default).bbox) := by
  have he : layouts.getD b default = (layouts.get? b).getD default := by simp [List.getD]
  rw [he]
  cases hg : layouts.get? b with
  | none => exact ⟨le_refl _, le_refl _⟩
  | some L => exact h L (List.get?_mem hg)

theorem assign_images_ordered :
    ∀ (idxs : List Nat) (layouts : List ImageLayout) (tls : List FinalTextLayout)
      (assigned : List Bool),
      (∀ L ∈ layouts, ordered_bb L.bbox) →
      (∀ t ∈ tls, ordered_bb t.bbox) →
      ∀ L ∈ (assign_captions_to_images layouts tls idxs assigned).1, ordered_bb L.bbox := by
  intro idxs
  induction idxs with
  | nil => intro layouts tls assigned h ht; exact h
  | cons i rest ih =>
    intro layouts tls assigned h ht
    by_cases ha : assigned.getD i false
    · rw [assign_captions_to_images, if_pos ha]
      exact ih layouts tls assigned h ht
    · rw [assign_captions_to_images, if_neg ha]
      dsimp only
      cases hbest :
          best_caption_index (layouts.map (fun l => l.bbox)) (tls.getD i default).bbox with
      | none => exact ih layouts tls assigned h ht
      | some b =>
        dsimp only
        refine ih _ tls _ ?_ ht
        intro L hL
        rcases List.mem_or_eq_of_mem_set hL with hL' | hL'
        · exact h L hL'
        · rw [hL']
          exact ordered_bbox_union _ _ (getD_image_layout_ordered layouts b h)
            (getD_text_layout_ordered tls i ht)

theorem assign_objects_ordered :
    ∀ (idxs : List Nat) (layouts : List ObjectLayout) (tls : List FinalTextLayout)
      (assigned : List Bool),
      (∀ L ∈ layouts, ordered_bb L.bbox) →
      (∀ t ∈ tls, ordered_bb t.bbox) →
      ∀ L ∈ (assign_captions_to_objects layouts tls idxs assigned).1, ordered_bb L.bbox := by
  intro idxs
  induction idxs with
  | nil => intro layouts tls assigned h ht; exact h
  | cons i rest ih =>
    intro layouts tls assigned h ht
    by_cases ha : assigned.getD i false
    · rw [assign_captions_to_objects, if_pos ha]
      exact ih layouts tls assigned h ht
    · rw [assign_captions_to_objects, if_neg ha]
      dsimp only
      cases hbest :
          best_caption_index (layouts.map (fun l => l.bbox)) (tls.getD i default).bbox with
      | none => exact ih layouts tls assigned h ht
      | some b =>
        dsimp only
        refine ih _ tls _ ?_ ht
        intro L hL
        rcases List.mem_or_eq_of_mem_set hL with hL' | hL'
        · exact h L hL'
        · rw [hL']
          exact ordered_bbox_union _ _ (getD_object_layout_ordered layouts b h)
            (getD_text_layout_ordered tls i ht)

theorem region_rect_ok_ordered (page_width page_height scale_x scale_y : ℚ)
    (image_width image_height : Nat) (index : Nat) (r : BB) (g : RegionGeom)
    (h : region_rect page_width page_height scale_x scale_y image_width image_height index r =
      .ok g) : ordered_bb g.bbox := by
  unfold region_rect at h
  dsimp only at h
  split_ifs at h with h1 h2
  all_goals
    first
      | exact Except.noConfusion h
      | (push_neg at h1
         rw [← Except.ok.inj h]
         exact ⟨le_of_lt h1.1, le_of_lt h1.2⟩)

/-- Claim C3.  Every bounding box emitted by the core is ordered
(`x0 ≤ x1 ∧ y0 ≤ y1`): text runs, unit-square image bounds, path-point
bboxes, the runs of a full text pass, the positioned images of a full
graphics pass, text layouts built from ordered runs, object layouts, image
layouts, both caption-assignment passes, and the page-space rectangle of a
successful region crop. -/
theorem c3_bbox_order :
    (∀ m : Matrix, ordered_bb (unit_square_bounds m))
    ∧ (∀ (state : TextState) (text : String) (d : ℚ) (met : ℚ × ℚ),
        ordered_bb (bbox_from_block (build_text_block state text d met)))
    ∧ (∀ (ps : List (ℚ × ℚ)) (bb : BB), points_bbox ps = some bb → ordered_bb bb)
    ∧ (∀ (ops : List Op) (fonts : FontMap),
        ∀ b ∈ collect_text_blocks ops fonts, ordered_bb (bbox_from_block b))
    ∧ (∀ (resources : ResourceMap) (ops : List Op),
        ∀ img ∈ collect_positioned_images resources ops, ordered_bb img.bbox)
    ∧ (∀ blocks : List TextBlock, (∀ b ∈ blocks, ordered_bb (bbox_from_block b)) →
        ∀ L ∈ build_text_layouts blocks, ordered_bb L.bbox)
    ∧ (∀ segments : List (String × List (ℚ × ℚ)),
        ∀ L ∈ build_object_layouts segments, ordered_bb L.bbox)
    ∧ (∀ images : List PositionedImage, (∀ i ∈ images, ordered_bb i.bbox) →
        ∀ L ∈ build_image_layouts images, ordered_bb L.bbox)
    ∧ (∀ (layouts : List ImageLayout) (tls : List FinalTextLayout) (idxs : List Nat)
        (assigned : List Bool),
        (∀ L ∈ layouts, ordered_bb L.bbox) → (∀ t ∈ tls, ordered_bb t.bbox) →
        ∀ L ∈ (assign_captions_to_images layouts tls idxs assigned).1, ordered_bb L.bbox)
    ∧ (∀ (layouts : List ObjectLayout) (tls : List FinalTextLayout) (idxs : List Nat)
        (assigned : List Bool),
        (∀ L ∈ layouts, ordered_bb L.bbox) → (∀ t ∈ tls, ordered_bb t.bbox) →
        ∀ L ∈ (assign_captions_to_objects layouts tls idxs assigned).1, ordered_bb L.bbox)
    ∧ (∀ (page_width page_height scale_x scale_y : ℚ) (image_width image_height : Nat)
        (index : Nat) (r : BB) (g : RegionGeom),
        region_rect page_width page_height scale_x scale_y image_width image_height index r =
          .ok g → ordered_bb g.bbox) :=
  ⟨ordered_unit_square_bounds,
   ordered_build_text_block,
   ordered_points_bbox,
   collect_text_blocks_ordered,
   fun resources ops =>
     collect_positioned_images_ordered resources ops ⟨Matrix.identity, [], [], 0⟩ (by simp),
   build_text_layouts_ordered,
   fun segments => build_object_layouts_ordered segments [] (by simp),
   build_image_layouts_ordered,
   fun layouts tls idxs assigned h ht => assign_images_ordered idxs layouts tls assigned h ht,
   fun layouts tls idxs assigned h ht => assign_objects_ordered idxs layouts tls assigned h ht,
   region_rect_ok_ordered⟩

/-- Claim C3 (witness): the path-point and the text-layout parts of the
invariant instantiated at concrete inputs. -/
theorem c3_bbox_order_witness :
    ordered_bb ⟨1, 2, 4, 6⟩
    ∧ ∀ L ∈ build_text_layouts [⟨"Hi", 0, 0, 3, 7, 0, 0⟩], ordered_bb L.bbox :=
  ⟨c3_bbox_order.2.2.1 [(1, 2), (4, 6)] ⟨1, 2, 4, 6⟩ (by
      norm_num [points_bbox, expand_bb]),
   c3_bbox_order.2.2.2.2.2.1 [⟨"Hi", 0, 0, 3, 7, 0, 0⟩] (by
      intro b hb
      rw [List.mem_singleton.mp hb]
      exact ⟨by norm_num [bbox_from_block], by norm_num [bbox_from_block]⟩)⟩

/-!  Claim C4.  -/

/-- Claim C4 (counterexample).  Two candidate layouts with equal y-gaps
(5) to the caption box `(0,0,10,10)`: index 0 has x-gap 10, index 1 has
x-gap 30.  Both pass the `x_gap ≤ 40`, `y_gap ≤ 80` candidate test, yet the
code keeps index 0 — the candidate with the *smaller* x-gap — while the
claim requires the one with the larger x-gap (index 1). -/
theorem c4_caption_tiebreak_cex :
    best_caption_index [⟨20, 15, 25, 20⟩, ⟨40, 15, 45, 20⟩] ⟨0, 0, 10, 10⟩ = some 0
    ∧ bbox_gaps ⟨20, 15, 25, 20⟩ ⟨0, 0, 10, 10⟩ = (10, 5)
    ∧ bbox_gaps ⟨40, 15, 45, 20⟩ ⟨0, 0, 10, 10⟩ = (30, 5)
    ∧ best_caption_index [⟨20, 15, 25, 20⟩, ⟨40, 15, 45, 20⟩] ⟨0, 0, 10, 10⟩ ≠ some 1 := by
  refine ⟨?_, ?_, ?_, ?_⟩ <;>
    norm_num [best_caption_index, best_caption_go, best_caption_step, bbox_gaps, axis_gap,
      CAPTION_HORIZONTAL_MARGIN, CAPTION_VERTICAL_MARGIN, CAPTION_EPSILON]

/-- Claim C4 (amended).  Among two candidate layouts (both within the
`x_gap ≤ 40`, `y_gap ≤ 80` margins) the code picks the one whose y-gap is
smaller by more than ε = 1e-3; when the two y-gaps are within ε of each
other it keeps the first-scanned candidate exactly when the second's x-gap
is at least `x_gap₀ − ε` — that is, ties prefer the candidate with the
*smaller* x-gap, not the larger one. -/
theorem c4_caption_tiebreak_amended :
    ∀ b0 b1 cap : BB,
      (bbox_gaps b0 cap).1 ≤ CAPTION_HORIZONTAL_MARGIN →
      (bbox_gaps b0 cap).2 ≤ CAPTION_VERTICAL_MARGIN →
      (bbox_gaps b1 cap).1 ≤ CAPTION_HORIZONTAL_MARGIN →
      (bbox_gaps b1 cap).2 ≤ CAPTION_VERTICAL_MARGIN →
      ((bbox_gaps b1 cap).2 > (bbox_gaps b0 cap).2 + CAPTION_EPSILON →
          best_caption_index [b0, b1] cap = some 0)
      ∧ ((bbox_gaps b0 cap).2 > (bbox_gaps b1 cap).2 + CAPTION_EPSILON →
          best_caption_index [b0, b1] cap = some 1)
      ∧ (|(bbox_gaps b1 cap).2 - (bbox_gaps b0 cap).2| ≤ CAPTION_EPSILON →
          (best_caption_index [b0, b1] cap = some 0 ↔
            (bbox_gaps b1 cap).1 ≥ (bbox_gaps b0 cap).1 - CAPTION_EPSILON)) := by
  intro b0 b1 cap h0x h0y h1x h1y
  have hε : (0 : ℚ) < CAPTION_EPSILON := by norm_num [CAPTION_EPSILON]
  have hstep0 : best_caption_step cap 0 none b0 =
      some (0, (bbox_gaps b0 cap).2, (bbox_gaps b0 cap).1) := by
    simp [best_caption_step, h0x, h0y]
  have hrun : best_caption_index [b0, b1] cap =
      (best_caption_step cap 1 (some (0, (bbox_gaps b0 cap).2, (bbox_gaps b0 cap).1)) b1).map
        (fun best => best.1) := by
    simp [best_caption_index, best_caption_go, hstep0]
  refine ⟨?_, ?_, ?_⟩
  · intro hy
    rw [hrun]
    rw [best_caption_step, if_pos ⟨h1x, h1y⟩]
    rw [if_pos (Or.inl hy)]
    rfl
  · intro hy
    rw [hrun]
    rw [best_caption_step, if_pos ⟨h1x, h1y⟩]
    rw [if_neg ?_]
    · rfl
    · rintro (h | ⟨habs, _⟩)
      · linarith
      · rw [abs_le] at habs
        linarith [habs.1]
  · intro htie
    have hnot : ¬ (bbox_gaps b1 cap).2 > (bbox_gaps b0 cap).2 + CAPTION_EPSILON := by
      rw [abs_le] at htie
      linarith [htie.2]
    rw [hrun]
    by_cases hx : (bbox_gaps b1 cap).1 ≥ (bbox_gaps b0 cap).1 - CAPTION_EPSILON
    · rw [best_caption_step, if_pos ⟨h1x, h1y⟩, if_pos (Or.inr ⟨htie, hx⟩)]
      simp [hx]
    · rw [best_caption_step, if_pos ⟨h1x, h1y⟩, if_neg ?_]
      · simp [hx]
      · rintro (h | ⟨_, hx'⟩)
        · exact hnot h
        · exact hx hx'

/-- Claim C4 (witness for the amended theorem): equal y-gaps, x-gaps 12 and
30; the first-scanned candidate (smaller x-gap) is kept. -/
theorem c4_caption_tiebreak_witness :
    best_caption_index [⟨22, 15, 27, 20⟩, ⟨40, 15, 45, 20⟩] ⟨0, 0, 10, 10⟩ = some 0 :=
  ((c4_caption_tiebreak_amended ⟨22, 15, 27, 20⟩ ⟨40, 15, 45, 20⟩ ⟨0, 0, 10, 10⟩
      (by norm_num [bbox_gaps, axis_gap, CAPTION_HORIZONTAL_MARGIN])
      (by norm_num [bbox_gaps, axis_gap, CAPTION_VERTICAL_MARGIN])
      (by norm_num [bbox_gaps, axis_gap, CAPTION_HORIZONTAL_MARGIN])
      (by norm_num [bbox_gaps, axis_gap, CAPTION_VERTICAL_MARGIN])).2.2
    (by norm_num [bbox_gaps, axis_gap, CAPTION_EPSILON])).mpr
    (by norm_num [bbox_gaps, axis_gap, CAPTION_EPSILON])

/-!  Claim C5.  -/

/-- Total number of caption entries across a list of image layouts. -/
def total_image_captions (layouts : List ImageLayout) : Nat :=
  (layouts.map (fun l => l.captions.length)).sum

/-- Total number of caption entries across a list of object layouts. -/
def total_object_captions (layouts : List ObjectLayout) : Nat :=
  (layouts.map (fun l => l.captions.length)).sum

theorem best_caption_step_cases (cap : BB) (idx : Nat) (best : Option (Nat × ℚ × ℚ))
    (bbox : BB) :
    best_caption_step cap idx best bbox = best ∨
      best_caption_step cap idx best bbox =
        some (idx, (bbox_gaps bbox cap).2, (bbox_gaps bbox cap).1) := by
  cases best with
  | none =>
    unfold best_caption_step
    dsimp only
    split_ifs
    · exact Or.inr rfl
    · exact Or.inl rfl
  | some p =>
    obtain ⟨i, yy, xx⟩ := p
    unfold best_caption_step
    dsimp only
    split_ifs
    · exact Or.inl rfl
    · exact Or.inr rfl
    · exact Or.inl rfl

theorem best_caption_step_lt (cap : BB) (idx : Nat) (best : Option (Nat × ℚ × ℚ)) (bbox : BB)
    (h : ∀ j y x, best = some (j, y, x) → j < idx) :
    ∀ j y x, best_caption_step cap idx best bbox = some (j, y, x) → j < idx + 1 := by
  intro j y x hs
  rcases best_caption_step_cases cap idx best bbox with hc | hc
  · rw [hc] at hs
    have := h j y x hs
    omega
  · rw [hc] at hs
    have hj : idx = j := congrArg (fun o => o.1) (Option.some.inj hs)
    omega

theorem best_caption_go_nil (cap : BB) (idx : Nat) (best : Option (Nat × ℚ × ℚ)) :
    best_caption_go cap idx best [] = best := rfl

theorem best_caption_go_cons (cap : BB) (idx : Nat) (best : Option (Nat × ℚ × ℚ))
    (bb : BB) (rest : List BB) :
    best_caption_go cap idx best (bb :: rest) =
      best_caption_go cap (idx + 1) (best_caption_step cap idx best bb) rest := rfl

theorem best_caption_go_lt (cap : BB) :
    ∀ (l : List BB) (idx : Nat) (best : Option (Nat × ℚ × ℚ)),
      (∀ j y x, best = some (j, y, x) → j < idx) →
      ∀ j y x, best_caption_go cap idx best l = some (j, y, x) → j < idx + l.length := by
  intro l
  induction l with
  | nil =>
    intro idx best h j y x hs
    rw [best_caption_go_nil] at hs
    have := h j y x hs
    omega
  | cons bb rest ih =>
    intro idx best h j y x hs
    rw [best_caption_go_cons] at hs
    have h' := best_caption_step_lt cap idx best bb h
    have := ih (idx + 1) _ h' j y x hs
    simp only [List.length_cons]
    omega

theorem best_caption_index_lt (bbs : List BB) (cap : BB) (i : Nat)
    (h : best_caption_index bbs cap = some i) : i < bbs.length := by
  unfold best_caption_index at h
  cases hgo : best_caption_go cap 0 none bbs with
  | none => rw [hgo] at h; exact absurd h (by simp)
  | some p =>
    obtain ⟨j, y, x⟩ := p
    rw [hgo] at h
    simp at h
    have := best_caption_go_lt cap bbs 0 none (by simp) j y x hgo
    omega

theorem count_set_true : ∀ (l : List Bool) (i : Nat), i < l.length →
    l.getD i false = false → (l.set i true).count true = l.count true + 1 := by
  intro l
  induction l with
  | nil => intro i h; exact absurd h (by simp)
  | cons a t ih =>
    intro i hlen hget
    cases i with
    | zero =>
      simp only [List.getD_cons_zero] at hget
      subst hget
      simp [List.set, List.count_cons]
    | succ n =>
      have hrec := ih n (by simpa using hlen) (by simpa using hget)
      simp [List.set, List.count_cons, hrec]
      omega

theorem total_image_set_push :
    ∀ (layouts : List ImageLayout) (b : Nat) (cap : FinalTextLayout), b < layouts.length →
      total_image_captions (layouts.set b (push_caption_img (layouts.getD b default) cap)) =
        total_image_captions layouts + 1 := by
  intro layouts
  induction layouts with
  | nil => intro b cap h; exact absurd h (by simp)
  | cons L rest ih =>
    intro b cap hb
    cases b with
    | zero =>
      simp [total_image_captions, push_caption_img, List.set]
      omega
    | succ n =>
      have hrec := ih n cap (by simpa using hb)
      simp only [total_image_captions, List.map, List.sum_cons, List.set,
        List.getD_cons_succ] at hrec ⊢
      omega

theorem total_object_set_push :
    ∀ (layouts : List ObjectLayout) (b : Nat) (cap : FinalTextLayout), b < layouts.length →
      total_object_captions (layouts.set b (push_caption_obj (layouts.getD b default) cap)) =
        total_object_captions layouts + 1 := by
  intro layouts
  induction layouts with
  | nil => intro b cap h; exact absurd h (by simp)
  | cons L rest ih =>
    intro b cap hb
    cases b with
    | zero =>
      simp [total_object_captions, push_caption_obj, List.set]
      omega
    | succ n =>
      have hrec := ih n cap (by simpa using hb)
      simp only [total_object_captions, List.map, List.sum_cons, List.set,
        List.getD_cons_succ] at hrec ⊢
      omega

theorem assign_images_measure :
    ∀ (idxs : List Nat) (layouts : List ImageLayout) (tls : List FinalTextLayout)
      (assigned : List Bool),
      (∀ i ∈ idxs, i < assigned.length) →
      total_image_captions (assign_captions_to_images layouts tls idxs assigned).1 +
          assigned.count true =
        total_image_captions layouts +
          ((assign_captions_to_images layouts tls idxs assigned).2).count true
      ∧ ((assign_captions_to_images layouts tls idxs assigned).2).length = assigned.length := by
  intro idxs
  induction idxs with
  | nil =>
    intro layouts tls assigned h
    simp [assign_captions_to_images]
  | cons i rest ih =>
    intro layouts tls assigned h
    by_cases ha : assigned.getD i false
    · rw [assign_captions_to_images, if_pos ha]
      exact ih layouts tls assigned (fun j hj => h j (List.mem_cons_of_mem _ hj))
    · rw [assign_captions_to_images, if_neg ha]
      dsimp only
      cases hbest :
          best_caption_index (layouts.map (fun l => l.bbox)) (tls.getD i default).bbox with
      | none =>
        exact ih layouts tls assigned (fun j hj => h j (List.mem_cons_of_mem _ hj))
      | some b =>
        dsimp only
        have hblen : b < layouts.length := by
          have := best_caption_index_lt _ _ _ hbest
          simpa using this
        have hi : i < assigned.length := h i (List.mem_cons_self i rest)
        have hset_len : (assigned.set i true).length = assigned.length := by simp
        obtain ⟨e1, e2⟩ :=
          ih (layouts.set b (push_caption_img (layouts.getD b default) (tls.getD i default)))
            tls (assigned.set i true)
            (fun j hj => by rw [hset_len]; exact h j (List.mem_cons_of_mem _ hj))
        rw [total_image_set_push layouts b _ hblen] at e1
        rw [count_set_true assigned i hi (by simpa using ha)] at e1
        refine ⟨by omega, by rw [e2, hset_len]⟩

theorem assign_objects_measure :
    ∀ (idxs : List Nat) (layouts : List ObjectLayout) (tls : List FinalTextLayout)
      (assigned : List Bool),
      (∀ i ∈ idxs, i < assigned.length) →
      total_object_captions (assign_captions_to_objects layouts tls idxs assigned).1 +
          assigned.count true =
        total_object_captions layouts +
          ((assign_captions_to_objects layouts tls idxs assigned).2).count true
      ∧ ((assign_captions_to_objects layouts tls idxs assigned).2).length = assigned.length := by
  intro idxs
  induction idxs with
  | nil =>
    intro layouts tls assigned h
    simp [assign_captions_to_objects]
  | cons i rest ih =>
    intro layouts tls assigned h
    by_cases ha : assigned.getD i false
    · rw [assign_captions_to_objects, if_pos ha]
      exact ih layouts tls assigned (fun j hj => h j (List.mem_cons_of_mem _ hj))
    · rw [assign_captions_to_objects, if_neg ha]
      dsimp only
      cases hbest :
          best_caption_index (layouts.map (fun l => l.bbox)) (tls.getD i default).bbox with
      | none =>
        exact ih layouts tls assigned (fun j hj => h j (List.mem_cons_of_mem _ hj))
      | some b =>
        dsimp only
        have hblen : b < layouts.length := by
          have := best_caption_index_lt _ _ _ hbest
          simpa using this
        have hi : i < assigned.length := h i (List.mem_cons_self i rest)
        have hset_len : (assigned.set i true).length = assigned.length := by simp
        obtain ⟨e1, e2⟩ :=
          ih (layouts.set b (push_caption_obj (layouts.getD b default) (tls.getD i default)))
            tls (assigned.set i true)
            (fun j hj => by rw [hset_len]; exact h j (List.mem_cons_of_mem _ hj))
        rw [total_object_set_push layouts b _ hblen] at e1
        rw [count_set_true assigned i hi (by simpa using ha)] at e1
        refine ⟨by omega, by rw [e2, hset_len]⟩

theorem total_image_captions_zero (layouts : List ImageLayout)
    (h : ∀ L ∈ layouts, L.captions = []) : total_image_captions layouts = 0 := by
  induction layouts with
  | nil => rfl
  | cons L rest ih =>
    simp only [total_image_captions, List.map, List.sum_cons]
    rw [h L (List.mem_cons_self L rest)]
    simpa [total_image_captions] using ih fun x hx => h x (List.mem_cons_of_mem _ hx)

theorem total_object_captions_zero (layouts : List ObjectLayout)
    (h : ∀ L ∈ layouts, L.captions = []) : total_object_captions layouts = 0 := by
  induction layouts with
  | nil => rfl
  | cons L rest ih =>
    simp only [total_object_captions, List.map, List.sum_cons]
    rw [h L (List.mem_cons_self L rest)]
    simpa [total_object_captions] using ih fun x hx => h x (List.mem_cons_of_mem _ hx)

/-- Claim C5.  Caption assignment is injective: over the full
images-then-objects pipeline started from all-unassigned flags and
caption-free layouts, the total number of caption entries across all image
and object layouts equals the number of captions marked assigned (so each
caption is attached at most once, to at most one layout), and that number
is at most the number of text layouts; an attachment extends the target's
bbox to the union with the caption's bbox and flips the caption's flag;
a caption already assigned (in particular one taken by the image pass,
which runs first) is skipped by both passes. -/
theorem c5_caption_injective :
    (∀ (imgs : List ImageLayout) (objs : List ObjectLayout) (tls : List FinalTextLayout)
        (idxs : List Nat),
      (∀ i ∈ idxs, i < tls.length) →
      (∀ L ∈ imgs, L.captions = []) →
      (∀ L ∈ objs, L.captions = []) →
      total_image_captions
          (assign_captions_to_images imgs tls idxs (List.replicate tls.length false)).1 +
        total_object_captions
          (assign_captions_to_objects objs tls idxs
            (assign_captions_to_images imgs tls idxs (List.replicate tls.length false)).2).1 =
        ((assign_captions_to_objects objs tls idxs
            (assign_captions_to_images imgs tls idxs (List.replicate tls.length false)).2).2).count
          true
      ∧ ((assign_captions_to_objects objs tls idxs
            (assign_captions_to_images imgs tls idxs (List.replicate tls.length false)).2).2).count
          true ≤ tls.length)
    ∧ (∀ (layouts : List ImageLayout) (tls : List FinalTextLayout) (i b : Nat)
        (assigned : List Bool),
        assigned.getD i false = false →
        best_caption_index (layouts.map (fun l => l.bbox)) (tls.getD i default).bbox = some b →
        assign_captions_to_images layouts tls [i] assigned =
          (layouts.set b (push_caption_img (layouts.getD b default) (tls.getD i default)),
           assigned.set i true))
    ∧ (∀ (layouts : List ObjectLayout) (tls : List FinalTextLayout) (i b : Nat)
        (assigned : List Bool),
        assigned.getD i false = false →
        best_caption_index (layouts.map (fun l => l.bbox)) (tls.getD i default).bbox = some b →
        assign_captions_to_objects layouts tls [i] assigned =
          (layouts.set b (push_caption_obj (layouts.getD b default) (tls.getD i default)),
           assigned.set i true))
    ∧ (∀ (layouts : List ImageLayout) (tls : List FinalTextLayout) (i : Nat)
        (assigned : List Bool),
        assigned.getD i false = true →
        assign_captions_to_images layouts tls [i] assigned = (layouts, assigned))
    ∧ (∀ (layouts : List ObjectLayout) (tls : List FinalTextLayout) (i : Nat)
        (assigned : List Bool),
        assigned.getD i false = true →
        assign_captions_to_objects layouts tls [i] assigned = (layouts, assigned)) := by
  refine ⟨?_, ?_, ?_, ?_, ?_⟩
  · intro imgs objs tls idxs hb himg hobj
    have h0len : (List.replicate tls.length false).length = tls.length := by simp
    have h0cnt : (List.replicate tls.length false).count true = 0 := by
      simp [List.count_replicate]
    obtain ⟨e1, l1⟩ := assign_images_measure idxs imgs tls (List.replicate tls.length false)
      (fun j hj => by rw [h0len]; exact hb j hj)
    obtain ⟨e2, l2⟩ := assign_objects_measure idxs objs tls
      (assign_captions_to_images imgs tls idxs (List.replicate tls.length false)).2
      (fun j hj => by rw [l1, h0len]; exact hb j hj)
    rw [total_image_captions_zero imgs himg] at e1
    rw [total_object_captions_zero objs hobj] at e2
    rw [h0cnt] at e1
    have hle := List.count_le_length true
      (assign_captions_to_objects objs tls idxs
        (assign_captions_to_images imgs tls idxs (List.replicate tls.length false)).2).2
    rw [l2, l1, h0len] at hle
    exact ⟨by omega, hle⟩
  · intro layouts tls i b assigned ha hbest
    rw [assign_captions_to_images, if_neg (by simpa [List.getD] using ha)]
    dsimp only
    rw [hbest]
    rfl
  · intro layouts tls i b assigned ha hbest
    rw [assign_captions_to_objects, if_neg (by simpa [List.getD] using ha)]
    dsimp only
    rw [hbest]
    rfl
  · intro layouts tls i assigned ha
    rw [assign_captions_to_images, if_pos ha]
    rfl
  · intro layouts tls i assigned ha
    rw [assign_captions_to_objects, if_pos ha]
    rfl

/-- Claim C5 (witness): one image layout, one caption layout two units
above it, flags initially `[false]`: the caption attaches to the image
(extending its bbox to the union) and is marked assigned; a second,
already-assigned run is a no-op. -/
theorem c5_caption_injective_witness :
    assign_captions_to_images [⟨"Im0", ⟨0, 0, 10, 10⟩, []⟩]
        [⟨⟨0, 12, 10, 15⟩, ["Fig. 1"], "Fig. 1", true⟩] [0] [false] =
      ([⟨"Im0", ⟨0, 0, 10, 10⟩, []⟩].set 0
          (push_caption_img ([⟨"Im0", ⟨0, 0, 10, 10⟩, []⟩].getD 0 default)
            ([⟨⟨0, 12, 10, 15⟩, ["Fig. 1"], "Fig. 1", true⟩].getD 0 default)),
       [false].set 0 true)
    ∧ assign_captions_to_objects [] [⟨⟨0, 12, 10, 15⟩, ["Fig. 1"], "Fig. 1", true⟩] [0] [true] =
        ([], [true]) :=
  ⟨c5_caption_injective.2.1 [⟨"Im0", ⟨0, 0, 10, 10⟩, []⟩]
      [⟨⟨0, 12, 10, 15⟩, ["Fig. 1"], "Fig. 1", true⟩] 0 0 [false] rfl
      (by norm_num [best_caption_index, best_caption_go, best_caption_step, bbox_gaps,
        axis_gap, CAPTION_HORIZONTAL_MARGIN, CAPTION_VERTICAL_MARGIN]),
   c5_caption_injective.2.2.2.2 [] [⟨⟨0, 12, 10, 15⟩, ["Fig. 1"], "Fig. 1", true⟩] 0 [true] rfl⟩

/-- Claim C2 (witness): a font value with no widths table falls back to
glyph width 1000. -/
theorem c2_text_displacement_witness :
    (⟨none, none, false, none⟩ : ResolvedFont).widths = none
    ∧ (⟨none, none, false, none⟩ : ResolvedFont).glyph_width 7 = 1000 :=
  ⟨rfl, (c2_text_displacement none [] TextState.default).2.1 ⟨none, none, false, none⟩ 7 rfl⟩

/-!  Claim C6.  -/

/-- The big-endian two-byte codes of a byte list, dropping a trailing odd
byte. -/
def be_pairs : List Nat → List Nat
  | b1 :: b2 :: rest => (b1 * 256 + b2) :: be_pairs rest
  | _ => []

theorem decode_cid_codes (map : Option (Nat → Option String)) :
    ∀ bytes : List Nat, (decode_cid bytes map).codes = be_pairs bytes
  | [] => by simp [decode_cid, be_pairs]
  | [b] => by simp [decode_cid, be_pairs]
  | b1 :: b2 :: rest => by
    simp [decode_cid, be_pairs, decode_cid_codes map rest]

theorem be_pairs_length : ∀ bytes : List Nat, (be_pairs bytes).length = bytes.length / 2
  | [] => by simp [be_pairs]
  | [b] => by simp [be_pairs]
  | b1 :: b2 :: rest => by
    simp only [be_pairs, List.length_cons, be_pairs_length rest]
    omega

theorem decode_simple_codes (map : Option (Nat → Option String)) :
    ∀ bytes : List Nat, (decode_simple bytes map).codes = bytes
  | [] => rfl
  | b :: rest => by simp [decode_simple, decode_simple_codes map rest]

/-- Claim C6.  Under a CID font the decoder consumes two big-endian bytes
per code and returns exactly `⌊n/2⌋` codes, silently discarding a trailing
odd byte; under a simple font each byte yields exactly one code. -/
theorem c6_decode_lengths :
    ∀ (bytes : List Nat) (map : Option (Nat → Option String)),
      (decode_cid bytes map).codes = be_pairs bytes
      ∧ (decode_cid bytes map).codes.length = bytes.length / 2
      ∧ (decode_simple bytes map).codes = bytes
      ∧ (decode_simple bytes map).codes.length = bytes.length := by
  intro bytes map
  refine ⟨decode_cid_codes map bytes, ?_, decode_simple_codes map bytes, ?_⟩
  · rw [decode_cid_codes map bytes, be_pairs_length]
  · rw [decode_simple_codes map bytes]

/-!  Claim C7.  -/

theorem restore_fold_identity (resources : ResourceMap) :
    ∀ (n : Nat) (s : GState), s.stack = [] →
      ((List.replicate (n + 1) Op.Restore).foldl (gs_step resources) s).ctm = Matrix.identity := by
  intro n
  induction n with
  | zero =>
    intro s h
    simp [gs_step, h]
  | succ n ih =>
    intro s h
    have hstep : gs_step resources s Op.Restore =
        { s with ctm := Matrix.identity, stack := [] } := by
      simp [gs_step, h]
    rw [List.replicate_succ, List.foldl_cons, hstep]
    exact ih _ rfl

/-- Claim C7.  A `Restore` on an empty save/restore stack resets the CTM to
the identity matrix without failing (the embedding is total), leaves the
stack empty, and therefore any number of consecutive `Restore` operators on
an empty stack leave the CTM equal to identity. -/
theorem c7_restore_underflow :
    ∀ (resources : ResourceMap) (s : GState), s.stack = [] →
      (gs_step resources s Op.Restore).ctm = Matrix.identity
      ∧ (gs_step resources s Op.Restore).stack = []
      ∧ ∀ n : Nat,
          ((List.replicate (n + 1) Op.Restore).foldl (gs_step resources) s).ctm =
            Matrix.identity := by
  intro resources s h
  refine ⟨by simp [gs_step, h], by simp [gs_step, h], fun n => restore_fold_identity resources n s h⟩

/-- Claim C7 (witness): from CTM `[[5,0],[0,5],(7,9)]` and an empty stack,
one `Restore` and three consecutive `Restore`s both leave the identity. -/
theorem c7_restore_underflow_witness :
    (gs_step (fun _ => none) ⟨⟨5, 0, 0, 5, 7, 9⟩, [], [], 0⟩ Op.Restore).ctm = Matrix.identity
    ∧ ((List.replicate 3 Op.Restore).foldl (gs_step (fun _ => none))
        ⟨⟨5, 0, 0, 5, 7, 9⟩, [], [], 0⟩).ctm = Matrix.identity :=
  ⟨(c7_restore_underflow (fun _ => none) ⟨⟨5, 0, 0, 5, 7, 9⟩, [], [], 0⟩ rfl).1,
   (c7_restore_underflow (fun _ => none) ⟨⟨5, 0, 0, 5, 7, 9⟩, [], [], 0⟩ rfl).2.2 2⟩

/-!  Claim C8.  -/

/-- `apply_matrix` at the identity is the identity on points. -/
theorem apply_matrix_identity (p : ℚ × ℚ) : apply_matrix Matrix.identity p = p := by
  simp [apply_matrix, Matrix.identity]

/-- Claim C8.  When the resolved font metrics are absent — the font is
unknown, or known without usable descriptor metrics — the emitted run is
built with ascent 800 and descent −200 (1/1000 em); at the identity text
matrix with rise 0 and font size 10 that gives the y range `[-2, 8]`. -/
theorem c8_default_metrics :
    ∀ (state : TextState) (fonts : FontMap) (text : PdfStr) (blocks : List TextBlock),
      (state.current_font.bind fonts).bind ResolvedFont.metrics = none →
      (decode_with (state.current_font.bind fonts) text).text ≠ "" →
      ((handle_text_draw state fonts text blocks).2 =
          blocks ++
            [build_text_block state (decode_with (state.current_font.bind fonts) text).text
              (compute_text_displacement (state.current_font.bind fonts)
                (decode_with (state.current_font.bind fonts) text).codes state)
              (DEFAULT_ASCENT, DEFAULT_DESCENT)])
      ∧ (state.text_matrix = Matrix.identity → state.text_rise = 0 → state.font_size = 10 →
          ∀ (s : String) (d : ℚ),
            (build_text_block state s d (DEFAULT_ASCENT, DEFAULT_DESCENT)).y0 = -2
            ∧ (build_text_block state s d (DEFAULT_ASCENT, DEFAULT_DESCENT)).y1 = 8) := by
  intro state fonts text blocks hmet hne
  constructor
  · unfold handle_text_draw
    rw [if_neg hne, hmet]
    dsimp only
    split <;> rfl
  · intro hm hr hs s d
    constructor <;>
      norm_num [build_text_block, hm, hr, hs, apply_matrix_identity, expand_bb,
        DEFAULT_ASCENT, DEFAULT_DESCENT]

/-- Claim C8 (witness): a known font with widths but no metrics, the byte
`0x48` ("H"), font size 10 at the identity matrix: the run's y range is
`[-2, 8]`. -/
theorem c8_default_metrics_witness :
    (build_text_block { TextState.default with font_size := 10, current_font := some "F" }
        "H" 5 (DEFAULT_ASCENT, DEFAULT_DESCENT)).y0 = -2
    ∧ (build_text_block { TextState.default with font_size := 10, current_font := some "F" }
        "H" 5 (DEFAULT_ASCENT, DEFAULT_DESCENT)).y1 = 8 :=
  (c8_default_metrics { TextState.default with font_size := 10, current_font := some "F" }
      (fun n => if n = "F" then some ⟨some (fun _ => 500), none, false, none⟩ else none)
      ⟨[72]⟩ [] rfl (by decide)).2 rfl rfl rfl "H" 5

/-!  Claim C9.  -/

/-- Claim C9.  `extract_region_images` returns an empty list immediately
when called with an empty rectangle list, before the dpi validation: for
every non-finite or non-positive dpi the zero-rectangle call succeeds,
while the same dpi with a non-empty rectangle list raises the dpi error. -/
theorem c9_region_empty_rects :
    ∀ dpi : F32, dpi.isFinite = false ∨ dpi.leZero = true →
      extract_region_images_entry [] dpi = RegionCall.emptyOk
      ∧ ∀ (r : BB) (rest : List BB),
          extract_region_images_entry (r :: rest) dpi = RegionCall.dpiError := by
  intro dpi h
  constructor
  · rfl
  · intro r rest
    rcases h with h | h <;> simp [extract_region_images_entry, h]

/-- Claim C9 (witness): with `dpi = NaN`, zero rectangles succeed while one
rectangle raises the dpi error. -/
theorem c9_region_empty_rects_witness :
    extract_region_images_entry [] F32.nan = RegionCall.emptyOk
    ∧ extract_region_images_entry [⟨0, 0, 1, 1⟩] F32.nan = RegionCall.dpiError :=
  ⟨(c9_region_empty_rects F32.nan (Or.inl rfl)).1,
   (c9_region_empty_rects F32.nan (Or.inl rfl)).2 ⟨0, 0, 1, 1⟩ []⟩

/-!  Claim C10.  -/

/-- Claim C10.  A `TextDraw` whose decoded text is empty emits no run and
leaves the text state (in particular the text matrix) unchanged, and inside
a `TextDrawAdjusted` array such a `Text` element behaves as if absent. -/
theorem c10_empty_text_noop :
    ∀ (state : TextState) (fonts : FontMap) (text : PdfStr) (blocks : List TextBlock),
      (decode_with (state.current_font.bind fonts) text).text = "" →
      handle_text_draw state fonts text blocks = (state, blocks)
      ∧ ∀ rest : List TextDrawAdjusted,
          handle_text_adjusted state fonts (.text text :: rest) blocks =
            handle_text_adjusted state fonts rest blocks := by
  intro state fonts text blocks h
  have hdraw : handle_text_draw state fonts text blocks = (state, blocks) := by
    simp [handle_text_draw, h]
  exact ⟨hdraw, fun rest => by simp [handle_text_adjusted, hdraw]⟩

/-- Claim C10 (witness): a known simple font whose ToUnicode map sends every
code to the empty string; the byte `0x41` decodes to an empty text, so no run
is emitted and the state is unchanged even though the code's displacement
(width 500 at size 12) is non-zero. -/
theorem c10_empty_text_noop_witness :
    handle_text_draw
        { TextState.default with current_font := some "F1" }
        (fun n => if n = "F1" then
          some ⟨some (fun _ => 500), some (fun _ => some ""), false, none⟩ else none)
        ⟨[65]⟩ [] =
      ({ TextState.default with current_font := some "F1" }, [])
    ∧ compute_text_displacement
        (some ⟨some (fun _ => 500), some (fun _ => some ""), false, none⟩) [65]
        { TextState.default with current_font := some "F1" } ≠ 0 :=
  ⟨(c10_empty_text_noop { TextState.default with current_font := some "F1" }
      (fun n => if n = "F1" then
        some ⟨some (fun _ => 500), some (fun _ => some ""), false, none⟩ else none)
      ⟨[65]⟩ [] rfl).1,
   by norm_num [compute_text_displacement, ResolvedFont.glyph_width, TextState.default]⟩

end PdfExtract
